import Mathlib

/-!
Verification of the HistFactory model-building and inference behaviour taught by
the pyhf-tutorial notebooks.  The notebooks declare channel/sample/modifier
specifications and evaluate them through the external statistics library; the
constructions below embed the notebook data together with the likelihood
engine that the specification of this repository describes (modifier kinds,
auxiliary-data constraint slots, interpolation, log-likelihood evaluation,
test statistics), and prove the documented properties about them.
-/

/- ## Notebook data (01-histogram-fits, src/unnamed/part_000) -/

/-- The first background template histogram of the histogram-fit notebook. -/
def hist1 : List ℚ := [3/2, 3, 6, 15/2, 63/10, 33/5, 6, 9/2, 3, 3/2]

/-- The second background template histogram of the histogram-fit notebook. -/
def hist2 : List ℚ := [3, 6, 9, 12, 15, 9, 6, 3, 3/10, 3/20]

/- ## Cut-and-count inputs (03-hypothesis-testing) -/

/-- Expected signal count of the cut-and-count model. -/
def s : ℚ := 7

/-- Expected background count of the cut-and-count model. -/
def b : ℚ := 5

/-- Absolute uncertainty on the expected background of the cut-and-count model. -/
def delta_b : ℚ := 2

/- ## Constraint slots of a built model -/

/-- Modelled from the spec: the constraint attached to one constrained modifier
parameter.  `shapesys` yields a Poisson constraint whose auxiliary datum is the
effective count `(yield/σ)²`; `staterror` yields a per-bin Gaussian constraint
of mean `γ_b` with computed width `σ_b` and auxiliary datum 1; `histosys` and
`normsys` yield a standard Gaussian constraint on `α` with auxiliary datum 0.
The exact constraint code lives in the external statistics library, which is
not part of this repository. -/
inductive ConstraintKind
  | poisson (aux : ℚ)
  | gaussMean (sigma : ℝ)
  | gaussStd

/-- Modelled from the spec: the stored auxiliary datum of one constraint slot
(`(yield/σ)²` for the Poisson slots of `shapesys`, 1 for `staterror`, 0 for
`histosys`/`normsys`). -/
def auxOf : ConstraintKind → ℚ
  | .poisson a => a
  | .gaussMean _ => 1
  | .gaussStd => 0

/-- Modelled from the spec: the suggested initial value of the parameter of one
constraint slot (the multiplicative `γ` factors start at 1, the interpolation
parameters `α` start at 0). -/
def initOf : ConstraintKind → ℚ
  | .poisson _ => 1
  | .gaussMean _ => 1
  | .gaussStd => 0

/-- Modelled from the spec: the expected auxiliary datum of one constraint slot
at parameter value `v` (`γ·a` for the Poisson slots, `γ` respectively `α` for
the Gaussian slots). -/
def expectedOf : ConstraintKind → ℚ → ℚ
  | .poisson a, v => v * a
  | .gaussMean _, v => v
  | .gaussStd, v => v

/-- Modelled from the spec: the list of constraint slots that a `shapesys`
modifier contributes, one Poisson slot per bin with auxiliary datum
`(yield/σ)²` built from the nominal yields and the absolute per-bin
uncertainties declared in the modifier. -/
def shapesysSlots (yields deltas : List ℚ) : List ConstraintKind :=
  List.zipWith (fun y d => ConstraintKind.poisson ((y / d) ^ 2)) yields deltas

/-- Modelled from the spec: the stored auxiliary data of a built model, one
slot per constrained modifier parameter, in slot order. -/
def config_auxdata (slots : List ConstraintKind) : List ℚ :=
  slots.map auxOf

/- ## The model -/

/-- Modelled from the spec: a built model.  It owns the main-channel bin count,
the pure function computing expected main-channel yields from the parameter
vector, the suggested initial values of the free (unconstrained) parameters,
and the ordered constraint slots of the constrained parameters.  The parameter
vector lays out the free parameters first, followed by one value per
constraint slot. -/
structure HFModel where
  nMain : ℕ
  expectedMain : List ℚ → List ℚ
  freeInit : List ℚ
  slots : List ConstraintKind

/-- Modelled from the spec: the constrained-parameter values extracted from the
full parameter vector, one per constraint slot, in slot order. -/
def HFModel.slotVals (M : HFModel) (ps : List ℚ) : List ℚ :=
  ps.drop M.freeInit.length

/-- Modelled from the spec: the suggested initial parameter vector, free
parameters first, then the per-slot initial values. -/
def HFModel.suggested_init (M : HFModel) : List ℚ :=
  M.freeInit ++ M.slots.map initOf

/-- Modelled from the spec: the expected auxiliary data of the model at a
parameter vector, one value per constraint slot, in slot order. -/
def HFModel.expected_auxdata (M : HFModel) (ps : List ℚ) : List ℚ :=
  List.zipWith expectedOf M.slots (M.slotVals ps)

/- ## The cut-and-count model of 03-hypothesis-testing -/

/-- Modelled from the spec: the expected main-channel yields of the
uncorrelated-background model, `λ_b = μ·s_b + γ_b·b_b` for signal strength `μ`
and per-bin background scale factors `γ_b`.  The builder itself
(`pyhf.simplemodels.uncorrelated_background`) lives in the external library. -/
def expected_actualdata (signal bkg : List ℚ) (mu : ℚ) (gammas : List ℚ) : List ℚ :=
  List.zipWith (fun p g => mu * p.1 + g * p.2) (signal.zip bkg) gammas

/-- The single-bin cut-and-count model built in 03-hypothesis-testing from
`signal=[s], bkg=[b], bkg_uncertainty=[delta_b]`.  Its parameter vector is
`[mu, gamma]`, with the `shapesys`-style Poisson constraint slot on `gamma`. -/
def model_cc : HFModel where
  nMain := 1
  expectedMain := fun ps => expected_actualdata [s] [b] (ps.getD 0 1) (ps.drop 1)
  freeInit := [1]
  slots := shapesysSlots [b] [delta_b]

/- ## Log-likelihood evaluation -/

/-- Modelled from the spec: the log of the (continuously extended) Poisson
probability of observing `n` at rate `lam`,
`n·ln lam - lam - ln Γ(n+1)`.  For an infeasible rate `lam ≤ 0` with a
positive observation the value is `-∞`; a non-positive observation at a
non-positive rate contributes nothing. -/
noncomputable def logPoisRealTerm (n lam : ℚ) : EReal :=
  if 0 < lam then
    (((n : ℝ) * Real.log (lam : ℝ) - (lam : ℝ) - Real.log (Real.Gamma ((n : ℝ) + 1)) : ℝ) : EReal)
  else if n ≤ 0 then (0 : EReal) else ⊥

/-- Modelled from the spec: the log of the Gaussian probability density of
observing `obs` at mean `mean` and width `sigma`. -/
noncomputable def gaussLogTerm (obs mean : ℚ) (sigma : ℝ) : EReal :=
  ((-(((obs : ℝ) - (mean : ℝ)) ^ 2) / (2 * sigma ^ 2)
      - Real.log (sigma * Real.sqrt (2 * Real.pi)) : ℝ) : EReal)

/-- Modelled from the spec: the log-likelihood contribution of one constraint
slot at parameter value `v` and observed auxiliary datum `obs`:
`ln Pois(obs | γ·a)` for the Poisson slots, `ln Gauss(obs | γ, σ)` for the
`staterror` slots, and `ln Gauss(obs | α, 1)` for the standard-Gaussian
slots. -/
noncomputable def constraintTerm (k : ConstraintKind) (v obs : ℚ) : EReal :=
  match k with
  | .poisson a => logPoisRealTerm obs (v * a)
  | .gaussMean sigma => gaussLogTerm obs v sigma
  | .gaussStd => gaussLogTerm obs v 1

/-- Modelled from the spec: the full log-likelihood of the model at a parameter
vector and a combined observed-data vector.  The data vector must consist of
the main-channel observed counts followed by the observed auxiliary data, in
that order; a vector of any other length is rejected.  The value is the sum of
the per-bin Poisson terms of the main channel and the per-slot constraint
terms. -/
noncomputable def HFModel.logpdf (M : HFModel) (ps observed : List ℚ) : Option EReal :=
  if observed.length = M.nMain + M.slots.length then
    some ((List.zipWith logPoisRealTerm (observed.take M.nMain) (M.expectedMain ps)).sum +
      (List.zipWith (fun k vo => constraintTerm k vo.1 vo.2)
        M.slots ((M.slotVals ps).zip (observed.drop M.nMain))).sum)
  else none

/- ## Test statistics (03-hypothesis-testing) -/

/-- The one-sided exclusion statistic `q_μ` exactly as displayed in the CLs
exclusion cell of 03-hypothesis-testing: `q_μ = -2 ln λ(μ)` when `μ̂ ≥ μ` and
`q_μ = 0` when `μ̂ < μ`.  The profile-likelihood-ratio statistic `-2 ln λ(μ)`
is abstracted as the function `tmu`. -/
def q_mu_code (tmu : ℚ → ℚ) (muhat mu : ℚ) : ℚ :=
  if mu ≤ muhat then tmu mu else 0

/-- Modelled from the spec: the one-sided exclusion statistic `q_μ` as the
specification states it (and as the statistics library invoked by the notebook
implements it): it clips to 0 when `μ̂ > μ` and equals `-2 ln λ(μ)` otherwise. -/
def q_mu_spec (tmu : ℚ → ℚ) (muhat mu : ℚ) : ℚ :=
  if mu < muhat then 0 else tmu mu

/- ## Helper lemmas -/

/-- The slot-wise expected auxiliary data at the initial parameter values
reproduces the stored auxiliary data. -/
theorem zipWith_expected_init (l : List ConstraintKind) :
    List.zipWith expectedOf l (l.map initOf) = l.map auxOf := by
  induction l with
  | nil => simp
  | cons k t ih =>
    cases k <;> simp [expectedOf, initOf, auxOf, ih]

/-- A sum of extended reals containing `-∞` is `-∞`. -/
theorem sum_eq_bot_of_mem {l : List EReal} (h : ⊥ ∈ l) : l.sum = ⊥ := by
  induction l with
  | nil => simp at h
  | cons a t ih =>
    rcases List.mem_cons.mp h with h1 | h2
    · simp [List.sum_cons, ← h1, EReal.bot_add]
    · simp [List.sum_cons, ih h2, EReal.add_bot]

/-- Membership transfer from a zipped pair list into the zipped-with list. -/
theorem mem_zipWith_of_mem_zip {α β γ : Type} (f : α → β → γ) {l₁ : List α} {l₂ : List β}
    {p : α × β} (h : p ∈ l₁.zip l₂) : f p.1 p.2 ∈ List.zipWith f l₁ l₂ := by
  induction l₁ generalizing l₂ with
  | nil => simp [List.zip] at h
  | cons a t ih =>
    cases l₂ with
    | nil => simp [List.zip] at h
    | cons c t₂ =>
      rcases List.mem_cons.mp h with h1 | h2
      · simp [List.zipWith, h1]
      · exact List.mem_cons.mpr (Or.inr (ih h2))

/- ## Claims -/

/-- C1: evaluation of the displayed notebook `q_μ` against the claimed
one-sided clipping, at the concrete input `μ̂ = 2`, `μ = 1` with the Gaussian
profile-likelihood-ratio shape `t_μ = (μ̂ - μ)²`: the case split of the notebook
returns `-2 ln λ(1) = 1`, while the claimed (and specified) definition clips this
upward fluctuation to 0.  The two case splits are inverted relative to each
other. -/
theorem C1_qmu_clipping_inverted :
    q_mu_code (fun m => (2 - m) ^ 2) 2 1 = 1 ∧
    q_mu_spec (fun m => (2 - m) ^ 2) 2 1 = 0 := by
  constructor <;> norm_num [q_mu_code, q_mu_spec]

/-- C3: the stored auxiliary data of a `shapesys` modifier is `(yield/σ)²` in
each bin; for the cut-and-count model built from `s=7, b=5, delta_b=2` the
single auxiliary datum is `(5/2)² = 25/4 = 6.25`. -/
theorem C3_shapesys_auxdata :
    config_auxdata model_cc.slots = [25/4] ∧
    (25/4 : ℚ) = 6.25 ∧
    ∀ yields deltas : List ℚ,
      config_auxdata (shapesysSlots yields deltas) =
        List.zipWith (fun y d => (y / d) ^ 2) yields deltas := by
  refine ⟨?_, by norm_num, ?_⟩
  · norm_num [model_cc, config_auxdata, shapesysSlots, auxOf, b, delta_b]
  · intro yields deltas
    simp [config_auxdata, shapesysSlots, List.map_zipWith, auxOf]

/-- C5: the expected main-channel data of the cut-and-count model is linear in
the signal strength: at `[μ, γ] = [1, 1]` it is `[1·7 + 1·5] = [12]` and at
`[2, 1]` it is `[2·7 + 1·5] = [19]`. -/
theorem C5_expected_actualdata_linear :
    model_cc.expectedMain [1, 1] = [12] ∧ model_cc.expectedMain [2, 1] = [19] := by
  constructor <;> norm_num [model_cc, expected_actualdata, s, b]

/-- C6: for every built model, evaluating the expected auxiliary data at the
suggested initial parameter vector (all constrained scale factors at 1, all
interpolation parameters at 0) returns exactly the stored auxiliary data,
slot for slot. -/
theorem C6_expected_auxdata_at_init (M : HFModel) :
    M.expected_auxdata M.suggested_init = config_auxdata M.slots := by
  rw [HFModel.expected_auxdata, HFModel.slotVals, HFModel.suggested_init,
    List.drop_left, config_auxdata]
  exact zipWith_expected_init M.slots

/-- C7: at every parameter point at which the likelihood is infeasible (some
main-channel bin with expected yield at most 0 but positive observed count),
evaluation of `logpdf` on a well-shaped data vector returns the barrier value
`-∞` (rather than failing), so an optimizer can evaluate it at any point. -/
theorem C7_logpdf_infeasible_bot (M : HFModel) (ps observed : List ℚ)
    (hlen : observed.length = M.nMain + M.slots.length)
    (hinf : ∃ p ∈ (observed.take M.nMain).zip (M.expectedMain ps), 0 < p.1 ∧ p.2 ≤ 0) :
    M.logpdf ps observed = some ⊥ := by
  obtain ⟨p, hp, hn, hlam⟩ := hinf
  have hbot : logPoisRealTerm p.1 p.2 = ⊥ := by
    rw [logPoisRealTerm, if_neg (not_lt.mpr hlam), if_neg (not_le.mpr hn)]
  have hmem : (⊥ : EReal) ∈ List.zipWith logPoisRealTerm (observed.take M.nMain)
      (M.expectedMain ps) := hbot ▸ mem_zipWith_of_mem_zip logPoisRealTerm hp
  rw [HFModel.logpdf, if_pos hlen, sum_eq_bot_of_mem hmem, EReal.bot_add]

/-- C7 witness: the cut-and-count model at the parameter point
`[μ, γ] = [0, -1]`, where the expected main yield is `0·7 + (-1)·5 = -5 ≤ 0`
while the observed count is 12, evaluates to `-∞`. -/
theorem C7_logpdf_infeasible_bot_witness :
    (∃ p ∈ ([(12 : ℚ), 25/4].take model_cc.nMain).zip (model_cc.expectedMain [0, -1]),
        0 < p.1 ∧ p.2 ≤ 0) ∧
    model_cc.logpdf [0, -1] [12, 25/4] = some ⊥ := by
  have hinf : ∃ p ∈ ([(12 : ℚ), 25/4].take model_cc.nMain).zip (model_cc.expectedMain [0, -1]),
      0 < p.1 ∧ p.2 ≤ 0 := by
    refine ⟨(12, -5), ?_, by norm_num⟩
    norm_num [model_cc, expected_actualdata, s, b]
  exact ⟨hinf, C7_logpdf_infeasible_bot model_cc [0, -1] [12, 25/4]
    (by norm_num [model_cc, shapesysSlots]) hinf⟩

/-- C8: for every built model, the stored auxiliary data has exactly one slot
per constrained parameter, and for every well-shaped parameter vector the
expected auxiliary data has the same length and aligns slot for slot: position
`i` of the stored auxiliary data is the auxiliary datum of slot `i`, and
position `i` of the expected auxiliary data is the expectation of slot `i` at
the `i`-th constrained parameter value. -/
theorem C8_auxdata_slot_alignment (M : HFModel) :
    (config_auxdata M.slots).length = M.slots.length ∧
    ∀ ps : List ℚ, M.slots.length ≤ (M.slotVals ps).length →
      (M.expected_auxdata ps).length = (config_auxdata M.slots).length ∧
      ∀ i : ℕ, i < M.slots.length →
        (config_auxdata M.slots).getD i 0 = auxOf (M.slots.getD i ConstraintKind.gaussStd) ∧
        (M.expected_auxdata ps).getD i 0 =
          expectedOf (M.slots.getD i ConstraintKind.gaussStd) ((M.slotVals ps).getD i 0) := by
  refine ⟨by simp [config_auxdata], ?_⟩
  intro ps hps
  have hlen : (M.expected_auxdata ps).length = M.slots.length := by
    simp [HFModel.expected_auxdata, Nat.min_eq_left hps]
  refine ⟨by simp [hlen, config_auxdata], ?_⟩
  intro i hi
  have hi2 : i < (M.slotVals ps).length := lt_of_lt_of_le hi hps
  constructor
  · rw [List.getD_eq_getElem _ _ (by simpa [config_auxdata] using hi),
      List.getD_eq_getElem _ _ hi]
    simp [config_auxdata]
  · rw [List.getD_eq_getElem _ _ (by simpa [hlen] using hi),
      List.getD_eq_getElem _ _ hi, List.getD_eq_getElem _ _ hi2]
    simp [HFModel.expected_auxdata]

/-- C8 witness: for the cut-and-count model and the parameter vector `[1, 1]`,
the lengths agree and the single auxiliary slot aligns. -/
theorem C8_auxdata_slot_alignment_witness :
    model_cc.slots.length ≤ (model_cc.slotVals [1, 1]).length ∧
    ((model_cc.expected_auxdata [1, 1]).length = (config_auxdata model_cc.slots).length ∧
      ∀ i : ℕ, i < model_cc.slots.length →
        (config_auxdata model_cc.slots).getD i 0 =
          auxOf (model_cc.slots.getD i ConstraintKind.gaussStd) ∧
        (model_cc.expected_auxdata [1, 1]).getD i 0 =
          expectedOf (model_cc.slots.getD i ConstraintKind.gaussStd)
            ((model_cc.slotVals [1, 1]).getD i 0)) := by
  have hps : model_cc.slots.length ≤ (model_cc.slotVals [1, 1]).length := by
    simp [model_cc, HFModel.slotVals, shapesysSlots]
  exact ⟨hps, (C8_auxdata_slot_alignment model_cc).2 [1, 1] hps⟩

/-- C10: the observed-data vector accepted by `logpdf` is the concatenation of
the main-channel observed counts followed by the observed auxiliary data, in
that fixed order: on such a vector the main part feeds exactly the main-channel
Poisson terms and the trailing part feeds exactly the constraint terms. -/
theorem C10_data_concat_layout (M : HFModel) (ps main aux : List ℚ)
    (hm : main.length = M.nMain) (ha : aux.length = M.slots.length) :
    M.logpdf ps (main ++ aux) =
      some ((List.zipWith logPoisRealTerm main (M.expectedMain ps)).sum +
        (List.zipWith (fun k vo => constraintTerm k vo.1 vo.2)
          M.slots ((M.slotVals ps).zip aux)).sum) := by
  rw [HFModel.logpdf, if_pos (by simp [hm, ha]), ← hm, List.take_left, List.drop_left]

/-- C10 witness: the cut-and-count model at `[μ, γ] = [1, 1]` with observed
main count 12 and observed auxiliary datum 25/4 splits the concatenated data
vector into the main Poisson term and the constraint term. -/
theorem C10_data_concat_layout_witness :
    model_cc.logpdf [1, 1] ([12] ++ [25/4]) =
      some ((List.zipWith logPoisRealTerm [12] (model_cc.expectedMain [1, 1])).sum +
        (List.zipWith (fun k vo => constraintTerm k vo.1 vo.2)
          model_cc.slots ((model_cc.slotVals [1, 1]).zip [25/4])).sum) :=
  C10_data_concat_layout model_cc [1, 1] [12] [25/4] rfl
    (by norm_num [model_cc, shapesysSlots])

/- ## The staterror width (01-histogram-fits) -/

/-- Modelled from the spec: the Gaussian constraint width that a shared-name
`staterror` modifier produces for one bin of one channel, from the per-sample
rows `(yield, absolute uncertainty)` of that bin:
`σ_b = sqrt(Σ_s δ_sb²) / Σ_s y_sb`.  The aggregation is computed once at model
build time by the external statistics library. -/
noncomputable def staterror_sigma (rows : List (ℚ × ℝ)) : ℝ :=
  Real.sqrt ((rows.map (fun r => r.2 ^ 2)).sum) / ((rows.map (fun r => (r.1 : ℝ))).sum)

/-- The per-bin constraint width of the `statistical_error` modifier of the
two-sample model of 01-histogram-fits, in which `sample1` and `sample2`
declare `staterror` modifiers of the same name with absolute uncertainties
`sqrt(hist1)` and `sqrt(hist2)` (the Poisson errors of the templates). -/
noncomputable def model_stat_width (bin : ℕ) : ℝ :=
  staterror_sigma
    [(hist1.getD bin 0, Real.sqrt ((hist1.getD bin 0 : ℚ) : ℝ)),
     (hist2.getD bin 0, Real.sqrt ((hist2.getD bin 0 : ℚ) : ℝ))]

/-- Entries fetched with a 0 default from a list of nonnegative rationals are
nonnegative. -/
theorem getD_nonneg {l : List ℚ} (h : ∀ x ∈ l, 0 ≤ x) (n : ℕ) : 0 ≤ l.getD n 0 := by
  rcases lt_or_le n l.length with hlt | hge
  · rw [List.getD_eq_getElem _ _ hlt]
    exact h _ (l.getElem_mem hlt)
  · rw [List.getD_eq_default _ _ hge]

/-- The quadrature combination of two Poisson errors: for two samples with
nonnegative yields `q` and `r` and absolute uncertainties `sqrt q` and
`sqrt r`, the combined width is `sqrt (q + r) / (q + r)`. -/
theorem staterror_sigma_two_poisson (q r : ℚ) (hq : 0 ≤ q) (hr : 0 ≤ r) :
    staterror_sigma [(q, Real.sqrt ((q : ℚ) : ℝ)), (r, Real.sqrt ((r : ℚ) : ℝ))] =
      Real.sqrt (((q + r : ℚ) : ℝ)) / (((q + r : ℚ) : ℝ)) := by
  have hq' : (0 : ℝ) ≤ ((q : ℚ) : ℝ) := by exact_mod_cast hq
  have hr' : (0 : ℝ) ≤ ((r : ℚ) : ℝ) := by exact_mod_cast hr
  unfold staterror_sigma
  simp only [List.map_cons, List.map_nil, List.sum_cons, List.sum_nil, add_zero]
  rw [Real.sq_sqrt hq', Real.sq_sqrt hr']
  push_cast
  ring_nf

/-- C2: in the two-sample channel of 01-histogram-fits whose samples both
declare the `staterror` modifier named `statistical_error` with Poisson errors
`sqrt(hist1)` and `sqrt(hist2)`, the single per-bin Gaussian constraint width
`sqrt(Σ_s δ_sb²) / Σ_s y_sb` equals `sqrt(hist1+hist2)/(hist1+hist2)`
elementwise. -/
theorem C2_staterror_width_quadrature (bin : ℕ) :
    model_stat_width bin =
      Real.sqrt (((hist1.getD bin 0 + hist2.getD bin 0 : ℚ) : ℝ)) /
        (((hist1.getD bin 0 + hist2.getD bin 0 : ℚ) : ℝ)) := by
  have h1 : ∀ x ∈ hist1, (0 : ℚ) ≤ x := by norm_num [hist1]
  have h2 : ∀ x ∈ hist2, (0 : ℚ) ≤ x := by norm_num [hist2]
  exact staterror_sigma_two_poisson _ _ (getD_nonneg h1 bin) (getD_nonneg h2 bin)

/- ## Shape interpolation (histosys/normsys) -/

/-- Modelled from the spec: the interpolation strategy applied by the
`histosys`/`normsys` modifiers between the low, nominal and high reference
values.  The exact interpolation code is a pluggable strategy of the external
statistics library; the stated default of the spec is piecewise-linear:
`nom + α·(hi - nom)` for `α ≥ 0` and `nom + α·(nom - lo)` for `α < 0`. -/
def interpLin {K : Type} [LinearOrderedField K] (lo nom hi : K) (a : K) : K :=
  if 0 ≤ a then nom + a * (hi - nom) else nom + a * (nom - lo)

/-- On the nonpositive side the interpolation is the line through
`(-1, lo)` and `(0, nom)`. -/
theorem interpLin_of_nonpos {K : Type} [LinearOrderedField K] (lo nom hi : K)
    {a : K} (ha : a ≤ 0) : interpLin lo nom hi a = nom + a * (nom - lo) := by
  by_cases h0 : 0 ≤ a
  · have : a = 0 := le_antisymm ha h0
    simp [this, interpLin]
  · simp [interpLin, h0]

/-- C4: the interpolation applied by `histosys`/`normsys` hits the three
anchors exactly (`I(-1)=lo`, `I(0)=nom`, `I(1)=hi`), is continuous, and is
monotonic between consecutive anchors. -/
theorem C4_interp_anchors_continuity_monotone (lo nom hi : ℝ) :
    interpLin lo nom hi (-1) = lo ∧ interpLin lo nom hi 0 = nom ∧
    interpLin lo nom hi 1 = hi ∧
    Continuous (interpLin lo nom hi) ∧
    (MonotoneOn (interpLin lo nom hi) (Set.Icc (-1 : ℝ) 0) ∨
      AntitoneOn (interpLin lo nom hi) (Set.Icc (-1 : ℝ) 0)) ∧
    (MonotoneOn (interpLin lo nom hi) (Set.Icc (0 : ℝ) 1) ∨
      AntitoneOn (interpLin lo nom hi) (Set.Icc (0 : ℝ) 1)) := by
  refine ⟨by norm_num [interpLin], by norm_num [interpLin], by norm_num [interpLin],
    ?_, ?_, ?_⟩
  · have hrw : (interpLin lo nom hi) = fun a : ℝ =>
        if (0 : ℝ) ≤ a then nom + a * (hi - nom) else nom + a * (nom - lo) := rfl
    rw [hrw]
    apply Continuous.if_le (by fun_prop) (by fun_prop) continuous_const continuous_id
    intro a ha
    have ha0 : a = 0 := by simpa using ha.symm
    simp [ha0]
  · rcases le_total lo nom with h | h
    · left
      intro x hx y hy hxy
      rw [interpLin_of_nonpos lo nom hi hx.2, interpLin_of_nonpos lo nom hi hy.2]
      nlinarith
    · right
      intro x hx y hy hxy
      rw [interpLin_of_nonpos lo nom hi hx.2, interpLin_of_nonpos lo nom hi hy.2]
      nlinarith
  · rcases le_total nom hi with h | h
    · left
      intro x hx y hy hxy
      simp only [interpLin, if_pos hx.1, if_pos hy.1]
      nlinarith
    · right
      intro x hx y hy hxy
      simp only [interpLin, if_pos hx.1, if_pos hy.1]
      nlinarith
